import Mathlib

/-!
Shallow embedding of the CSV-parsing core of `scripts/fetch-ebird.js`
(`parseEbirdDate`, `parseCSV`, and the output-envelope construction),
together with proofs about the spec's claims.

JavaScript strings are modelled as `List Char`; the fallible parsers
return `Option`.  `Array.prototype.sort` with the comparator
`(a, b) => new Date(a.date) - new Date(b.date)` is modelled as a stable
insertion sort whose "keep `a` before `b`" test is `compare(a,b) ≤ 0`,
with a comparator value of `NaN` coerced to `0` as ECMAScript's
`SortCompare` prescribes; for a consistent comparator this is exactly the
(stable, comparator-sorted) result the ECMAScript specification mandates.
`new Date(string)` is modelled on the `YYYY-MM-DD` profile of the
ECMAScript date-time string format; strings not of that exact shape are
modelled as an invalid date (`none`, i.e. `NaN` time value).
-/

namespace FetchEbird

/-- Characters removed by JavaScript `String.prototype.trim`
(ECMAScript WhiteSpace and LineTerminator code points). -/
def isJsWs (c : Char) : Bool :=
  c.toNat = 0x09 || c.toNat = 0x0A || c.toNat = 0x0B || c.toNat = 0x0C ||
  c.toNat = 0x0D || c.toNat = 0x20 || c.toNat = 0xA0 || c.toNat = 0x1680 ||
  (0x2000 ≤ c.toNat && c.toNat ≤ 0x200A) || c.toNat = 0x2028 ||
  c.toNat = 0x2029 || c.toNat = 0x202F || c.toNat = 0x205F ||
  c.toNat = 0x3000 || c.toNat = 0xFEFF

/-- Drop trailing JS-whitespace characters. -/
def rstrip : List Char → List Char
  | [] => []
  | c :: cs =>
    match rstrip cs with
    | [] => if isJsWs c then [] else [c]
    | r :: rs => c :: r :: rs

/-- JavaScript `String.prototype.trim`: drop leading and trailing whitespace. -/
def trim (l : List Char) : List Char := rstrip (l.dropWhile isJsWs)

/-- Split a character list at every character satisfying `p`
(the separators themselves are consumed).  `splitP p [] = [[]]`,
matching JavaScript `"".split(sep) = [""]`. -/
def splitP (p : Char → Bool) : List Char → List (List Char)
  | [] => [[]]
  | c :: cs =>
    if p c then [] :: splitP p cs
    else
      match splitP p cs with
      | [] => [[c]]
      | f :: r => (c :: f) :: r

/-- JavaScript `String.prototype.split` with a single-character separator. -/
def splitCh (sep : Char) (l : List Char) : List (List Char) :=
  splitP (fun c => c == sep) l

/-- The twelve own properties of the `months` object literal of
`parseEbirdDate` (`fetch-ebird.js` lines 31-35). -/
def monthTable : List (List Char × List Char) :=
  [("Jan".toList, "01".toList), ("Feb".toList, "02".toList),
   ("Mar".toList, "03".toList), ("Apr".toList, "04".toList),
   ("May".toList, "05".toList), ("Jun".toList, "06".toList),
   ("Jul".toList, "07".toList), ("Aug".toList, "08".toList),
   ("Sep".toList, "09".toList), ("Oct".toList, "10".toList),
   ("Nov".toList, "11".toList), ("Dec".toList, "12".toList)]

/-- The members a plain object literal inherits from `Object.prototype`:
`months[parts[1]]` at `fetch-ebird.js` line 41 is an unguarded property read,
so these keys also yield a value.  Each such value is truthy — eleven built-in
methods and the `__proto__` accessor (whose read yields `Object.prototype`
itself) — hence `if (!month)` does not fire on them.  The right-hand sides
are the texts these values interpolate to in a template literal under Node's
engine, V8 (the runtime this script declares: it is a Node/Playwright
script): `Function.prototype.toString` renders a built-in method as
`function name() \x7b [native code] \x7d`, and `Object.prototype` renders as
`[object Object]`. -/
def objectProtoMembers : List (List Char × List Char) :=
  [("constructor".toList, "function Object() \x7b [native code] \x7d".toList),
   ("__defineGetter__".toList, "function __defineGetter__() \x7b [native code] \x7d".toList),
   ("__defineSetter__".toList, "function __defineSetter__() \x7b [native code] \x7d".toList),
   ("hasOwnProperty".toList, "function hasOwnProperty() \x7b [native code] \x7d".toList),
   ("__lookupGetter__".toList, "function __lookupGetter__() \x7b [native code] \x7d".toList),
   ("__lookupSetter__".toList, "function __lookupSetter__() \x7b [native code] \x7d".toList),
   ("isPrototypeOf".toList, "function isPrototypeOf() \x7b [native code] \x7d".toList),
   ("propertyIsEnumerable".toList, "function propertyIsEnumerable() \x7b [native code] \x7d".toList),
   ("toString".toList, "function toString() \x7b [native code] \x7d".toList),
   ("valueOf".toList, "function valueOf() \x7b [native code] \x7d".toList),
   ("__proto__".toList, "[object Object]".toList),
   ("toLocaleString".toList, "function toLocaleString() \x7b [native code] \x7d".toList)]

/-- Lookup `months[parts[1]]` of `fetch-ebird.js` line 41: first the object
literal's own twelve entries, then the prototype chain (`Object.prototype`).
The result is the text the found (always truthy) value interpolates to in the
template literal at line 45; `none` models `undefined`, the only falsy
outcome, which line 44 turns into `null`. -/
def monthAbbrev (m : List Char) : Option (List Char) :=
  match monthTable.lookup m with
  | some v => some v
  | none => objectProtoMembers.lookup m

/-- JavaScript `String.prototype.padStart(2, '0')` (`fetch-ebird.js` line 40). -/
def padTwo (d : List Char) : List Char :=
  if 2 ≤ d.length then d else List.replicate (2 - d.length) '0' ++ d

/-- `parseEbirdDate` of `fetch-ebird.js` lines 30-46: trim, split on the
space character, require exactly three parts, look the month up in the
fixed table, and rebuild as `year-month-paddedDay`. -/
def parseEbirdDate (s : List Char) : Option (List Char) :=
  match splitCh ' ' (trim s) with
  | [d, m, y] =>
    match monthAbbrev m with
    | some mm => some (y ++ '-' :: (mm ++ '-' :: padTwo d))
    | none => none
  | _ => none

/-- One step of the quote-toggling tokenizer of `fetch-ebird.js` lines 65-75.
State: (columns pushed so far, current field accumulator, inQuotes flag). -/
def scanStep (s : List (List Char) × List Char × Bool) (c : Char) :
    List (List Char) × List Char × Bool :=
  if c == '"' then (s.1, s.2.1, !s.2.2)
  else if c == ',' && !s.2.2 then (s.1 ++ [trim s.2.1], [], false)
  else (s.1, s.2.1 ++ [c], s.2.2)

/-- Run the tokenizer's character loop from the initial state. -/
def scanLine (l : List Char) : List (List Char) × List Char × Bool :=
  l.foldl scanStep ([], [], false)

/-- The full tokenizer (`fetch-ebird.js` lines 61-76): run the loop, then
push the trimmed final accumulator. -/
def tokenizeLine (l : List Char) : List (List Char) :=
  (scanLine l).1 ++ [trim (scanLine l).2.1]

/-- `columns[6].replace(/"/g, '')` of `fetch-ebird.js` line 86. -/
def removeQuotes (l : List Char) : List Char :=
  l.filter (fun c => c != '"')

/-- One observation record as constructed at `fetch-ebird.js` lines 82-88. -/
structure Observation where
  date : List Char
  sciName : List Char
  common : List Char
  location : List Char
  region : List Char
deriving DecidableEq

/-- The per-row branch of `parseCSV` (`fetch-ebird.js` lines 57-90): trim
the row, skip it when blank, tokenize, require at least nine columns, and
require the date field to normalize. -/
def parseRow (rawLine : List Char) : Option Observation :=
  if trim rawLine = [] then none
  else if 9 ≤ (tokenizeLine (trim rawLine)).length then
    match parseEbirdDate ((tokenizeLine (trim rawLine)).getD 8 []) with
    | some d =>
      some { date := d,
             sciName := (tokenizeLine (trim rawLine)).getD 4 [],
             common := (tokenizeLine (trim rawLine)).getD 3 [],
             location := removeQuotes ((tokenizeLine (trim rawLine)).getD 6 []),
             region := (tokenizeLine (trim rawLine)).getD 7 [] }
    | none => none
  else none

/-- `n % 4 == 0 && (n % 100 != 0 || n % 400 == 0)`: the Gregorian leap rule
used by ECMAScript time values. -/
def isLeapYear (y : Nat) : Bool :=
  y % 4 == 0 && (y % 100 != 0 || y % 400 == 0)

/-- Number of days of month `m` (1-12) in year `y`. -/
def daysInMonth (y m : Nat) : Nat :=
  if m == 2 then (if isLeapYear y then 29 else 28)
  else if m == 4 || m == 6 || m == 9 || m == 11 then 30 else 31

/-- Days from 1970-01-01 to `y`-`m`-`d` (proleptic Gregorian), the civil
day count underlying ECMAScript time values.  The year is shifted by 400
so the computation stays in `Nat`. -/
def daysFromCivil (y m d : Nat) : Int :=
  let yAdj := if m ≤ 2 then y + 400 - 1 else y + 400
  let era := yAdj / 400
  let yoe := yAdj % 400
  let mp := if 2 < m then m - 3 else m + 9
  let doy := (153 * mp + 2) / 5 + (d - 1)
  let doe := yoe * 365 + yoe / 4 - yoe / 100 + doy
  (era * 146097 + doe : Int) - 146097 - 719468

/-- Is `c` an ASCII decimal digit? -/
def isDigitCh (c : Char) : Bool :=
  48 ≤ c.toNat && c.toNat ≤ 57

/-- Numeric value of an ASCII digit. -/
def digitVal (c : Char) : Nat := c.toNat - 48

/-- Time value (milliseconds since the epoch) of `new Date(s)` on the
`YYYY-MM-DD` profile of the ECMAScript date-time string format: exactly
ten characters, four-digit year, two-digit month `01`-`12`, two-digit
calendar-valid day.  Any other string is modelled as an invalid date
(`none`, a `NaN` time value), matching engine behaviour on the strings
this program ever compares. -/
def dateValue : List Char → Option Int
  | [y1, y2, y3, y4, h1, m1, m2, h2, d1, d2] =>
    if h1 == '-' && h2 == '-' && isDigitCh y1 && isDigitCh y2 && isDigitCh y3 &&
        isDigitCh y4 && isDigitCh m1 && isDigitCh m2 && isDigitCh d1 && isDigitCh d2 then
      let y := 1000 * digitVal y1 + 100 * digitVal y2 + 10 * digitVal y3 + digitVal y4
      let m := 10 * digitVal m1 + digitVal m2
      let d := 10 * digitVal d1 + digitVal d2
      if 1 ≤ m && m ≤ 12 && 1 ≤ d && d ≤ daysInMonth y m then
        some (86400000 * daysFromCivil y m d)
      else none
    else none
  | _ => none

/-- The sort comparator of `fetch-ebird.js` line 93,
`(a, b) => new Date(a.date) - new Date(b.date)`, reduced to the test "may
`a` stay before `b`", i.e. comparator value `≤ 0`; a `NaN` comparator
value is coerced to `0` (ECMAScript `SortCompare`), hence `true`. -/
def sortLE (a b : Observation) : Bool :=
  match dateValue a.date, dateValue b.date with
  | some x, some y => decide (x - y ≤ 0)
  | _, _ => true

/-- Stable insertion of `x` in front of the first element it may precede. -/
def jsSortInsert (le : Observation → Observation → Bool) (x : Observation) :
    List Observation → List Observation
  | [] => [x]
  | y :: ys => if le x y then x :: y :: ys else y :: jsSortInsert le x ys

/-- Stable sort modelling `Array.prototype.sort`: for a consistent
comparator it returns the unique stable, comparator-sorted permutation
required by the ECMAScript specification. -/
def jsSort (le : Observation → Observation → Bool) :
    List Observation → List Observation
  | [] => []
  | x :: xs => jsSortInsert le x (jsSort le xs)

/-- The observations collected by the row loop of `parseCSV`
(`fetch-ebird.js` lines 52-91): split on `'\n'`, skip row 0, keep every
row the per-row branch accepts. -/
def rowObservations (text : List Char) : List Observation :=
  ((splitCh '\n' text).drop 1).filterMap parseRow

/-- `parseCSV` of `fetch-ebird.js` lines 51-94: collect then sort. -/
def parseCSV (text : List Char) : List Observation :=
  jsSort sortLE (rowObservations text)

/-- The `profile` sub-object of the output document. Timestamps are
modelled as opaque integers supplied by the caller. -/
structure Profile where
  lastSync : Int
deriving DecidableEq

/-- The `dataJson` output document built at `fetch-ebird.js` lines 164-170. -/
structure OutputEnvelope where
  profile : Profile
  observations : List Observation
  exportedAt : Int
deriving DecidableEq

/-- The pipeline `run`: parse the text and wrap the result in the envelope,
with the two independently captured timestamps passed in as parameters. -/
def run (ts1 ts2 : Int) (text : List Char) : OutputEnvelope :=
  { profile := { lastSync := ts1 }, observations := parseCSV text, exportedAt := ts2 }

/-- Rendering of the spec phrase "whitespace-separated tokens": the maximal
runs of non-whitespace characters (used to compare the spec's wording of
claim C2 with the code's single-space split). -/
def wsTokens (l : List Char) : List (List Char) :=
  (splitP isJsWs l).filter (fun t => !t.isEmpty)

/-- Lexicographic (code-unit) string order, the "lexical" comparison the
spec appeals to for date ordering. -/
def lexLeB : List Char → List Char → Bool
  | [], _ => true
  | _ :: _, [] => false
  | a :: as, b :: bs => if a.toNat < b.toNat then true else if a == b then lexLeB as bs else false

/-- The time value of an observation's date, with invalid dates defaulted;
only used under a validity hypothesis. -/
def msOf (o : Observation) : Int := (dateValue o.date).getD 0

/-- The observation's date is `Date`-parseable (no `NaN` time value). -/
def validDate (o : Observation) : Prop := (dateValue o.date).isSome = true

/-- Join lines with a separator sequence (inverse of line splitting), used
to state claims that compare the same text under different line endings. -/
def joinWith (sep : List Char) : List (List Char) → List Char
  | [] => []
  | [l] => l
  | l :: l' :: ls => l ++ sep ++ joinWith sep (l' :: ls)

/-- Append a carriage return to every line but the last: the shape
`"a\r\nb".split('\n')` produces from CRLF-terminated text. -/
def addCR : List (List Char) → List (List Char)
  | [] => []
  | [l] => [l]
  | l :: l' :: ls => (l ++ ['\r']) :: addCR (l' :: ls)

instance (o : Observation) : Decidable (validDate o) := by
  unfold validDate; infer_instance

/-! Basic properties of `trim`. -/

theorem dropWhile_ws_idem (l : List Char) :
    (l.dropWhile isJsWs).dropWhile isJsWs = l.dropWhile isJsWs := by
  induction l with
  | nil => rfl
  | cons a t ih =>
    by_cases h : isJsWs a
    · simpa [List.dropWhile_cons, h] using ih
    · simp [List.dropWhile_cons, h]

theorem rstrip_cons_eq (a : Char) (t r : List Char) (c : Char) (h : rstrip t = c :: r) :
    rstrip (a :: t) = a :: c :: r := by
  simp [rstrip, h]

theorem rstrip_idem (l : List Char) : rstrip (rstrip l) = rstrip l := by
  induction l with
  | nil => rfl
  | cons a t ih =>
    cases hrt : rstrip t with
    | nil =>
      by_cases h : isJsWs a
      · simp [rstrip, hrt, h]
      · simp [rstrip, hrt, h]
    | cons r rs =>
      rw [hrt] at ih
      rw [rstrip_cons_eq a t rs r hrt, rstrip_cons_eq a (r :: rs) rs r ih]

theorem dropWhile_rstrip_comm (l : List Char) :
    (rstrip l).dropWhile isJsWs = rstrip (l.dropWhile isJsWs) := by
  induction l with
  | nil => rfl
  | cons a t ih =>
    by_cases h : isJsWs a
    · cases hrt : rstrip t with
      | nil =>
        have h1 : rstrip (a :: t) = [] := by simp [rstrip, hrt, h]
        rw [h1, List.dropWhile_nil, List.dropWhile_cons_of_pos h, ← ih, hrt,
          List.dropWhile_nil]
      | cons r rs =>
        have h1 : rstrip (a :: t) = a :: r :: rs := by simp [rstrip, hrt]
        rw [h1, List.dropWhile_cons_of_pos h, ← hrt, ih, List.dropWhile_cons_of_pos h]
    · rw [List.dropWhile_cons_of_neg h]
      cases hrt : rstrip t with
      | nil => simp [rstrip, hrt, h, List.dropWhile_cons]
      | cons r rs => simp [rstrip, hrt, List.dropWhile_cons, h]

theorem trim_idem (l : List Char) : trim (trim l) = trim l := by
  unfold trim
  rw [dropWhile_rstrip_comm, dropWhile_ws_idem, rstrip_idem]

theorem rstrip_append_ws (c : Char) (hc : isJsWs c = true) (l : List Char) :
    rstrip (l ++ [c]) = rstrip l := by
  induction l with
  | nil => simp [rstrip, hc]
  | cons a t ih =>
    cases hrt : rstrip t with
    | nil => simp [rstrip, ih, hrt]
    | cons r rs => simp [rstrip, ih, hrt]

theorem trim_append_ws (c : Char) (hc : isJsWs c = true) (l : List Char) :
    trim (l ++ [c]) = trim l := by
  unfold trim
  rw [List.dropWhile_append]
  by_cases h : (l.dropWhile isJsWs).isEmpty
  · rw [if_pos h]
    have h0 : l.dropWhile isJsWs = [] := by simpa [List.isEmpty_iff] using h
    simp [h0, List.dropWhile_cons, hc]
  · rw [if_neg h, rstrip_append_ws c hc]

/-! Properties of the split functions. -/

theorem splitP_ne_nil (p : Char → Bool) (l : List Char) : splitP p l ≠ [] := by
  cases l with
  | nil => simp [splitP]
  | cons c cs =>
    by_cases h : p c
    · simp [splitP, h]
    · cases hs : splitP p cs with
      | nil => simp [splitP, h, hs]
      | cons f r => simp [splitP, h, hs]

theorem splitP_append_sep (p : Char → Bool) (c : Char) (hc : p c = true)
    (xs ys : List Char) : splitP p (xs ++ c :: ys) = splitP p xs ++ splitP p ys := by
  induction xs with
  | nil => simp [splitP, hc]
  | cons a t ih =>
    by_cases h : p a
    · simp [splitP, h, ih]
    · cases hxs : splitP p t with
      | nil => exact absurd hxs (splitP_ne_nil p t)
      | cons f r => simp [splitP, h, ih, hxs]

theorem splitP_no_sep (p : Char → Bool) :
    ∀ l : List Char, (∀ c ∈ l, p c = false) → splitP p l = [l]
  | [], _ => rfl
  | a :: t, h => by
    have ha : p a = false := h a (List.mem_cons_self a t)
    have ht : splitP p t = [t] := splitP_no_sep p t (fun c hc => h c (List.mem_cons_of_mem a hc))
    simp [splitP, ha, ht]

theorem splitCh_append_sep (c : Char) (xs ys : List Char) :
    splitCh c (xs ++ c :: ys) = splitCh c xs ++ splitCh c ys :=
  splitP_append_sep _ c (by simp) xs ys

theorem splitCh_no_sep (c : Char) (l : List Char) (h : c ∉ l) : splitCh c l = [l] :=
  splitP_no_sep _ l (fun _ hx => beq_eq_false_iff_ne.mpr (fun e => h (e ▸ hx)))

theorem splitCh_ne_nil (c : Char) (l : List Char) : splitCh c l ≠ [] :=
  splitP_ne_nil _ l

/-! Properties of the quote-toggling tokenizer. -/

theorem scanStep_cols (s : List (List Char) × List Char × Bool) (c : Char) :
    (scanStep s c).1 = s.1 ∨ (scanStep s c).1 = s.1 ++ [trim s.2.1] := by
  unfold scanStep
  split
  · exact Or.inl rfl
  · split
    · exact Or.inr rfl
    · exact Or.inl rfl

theorem foldl_scanStep_cols_trimmed (l : List Char) :
    ∀ s : List (List Char) × List Char × Bool, (∀ f ∈ s.1, trim f = f) →
      ∀ f ∈ (List.foldl scanStep s l).1, trim f = f := by
  induction l with
  | nil => intro s hs; exact hs
  | cons c t ih =>
    intro s hs
    rw [List.foldl_cons]
    apply ih
    rcases scanStep_cols s c with h | h
    · rw [h]; exact hs
    · rw [h]
      intro f hf
      rcases List.mem_append.mp hf with hf' | hf'
      · exact hs f hf'
      · rw [List.mem_singleton] at hf'
        subst hf'
        exact trim_idem _

theorem tokenizeLine_trimmed (l : List Char) : ∀ f ∈ tokenizeLine l, trim f = f := by
  intro f hf
  unfold tokenizeLine scanLine at hf
  rcases List.mem_append.mp hf with hf' | hf'
  · exact foldl_scanStep_cols_trimmed l ([], [], false) (by simp) f hf'
  · rw [List.mem_singleton] at hf'
    subst hf'
    exact trim_idem _

theorem tokenizeLine_getD_trimmed (l : List Char) (i : Nat) :
    trim ((tokenizeLine l).getD i []) = (tokenizeLine l).getD i [] := by
  by_cases h : i < (tokenizeLine l).length
  · rw [List.getD_eq_getElem _ _ h]
    exact tokenizeLine_trimmed l _ (List.getElem_mem h)
  · rw [List.getD_eq_default _ _ (Nat.le_of_not_lt h)]
    rfl

theorem foldl_scanStep_inQuotes (b : List Char) (hb : '"' ∉ b) :
    ∀ cols cur, List.foldl scanStep (cols, cur, true) b = (cols, cur ++ b, true) := by
  induction b with
  | nil => intro cols cur; simp
  | cons c t ih =>
    intro cols cur
    have hc : (c == '"') = false := by
      rw [beq_eq_false_iff_ne]
      intro e
      subst e
      exact hb (List.mem_cons_self _ _)
    rw [List.foldl_cons]
    have hstep : scanStep (cols, cur, true) c = (cols, cur ++ [c], true) := by
      simp [scanStep, hc]
    rw [hstep, ih (fun hm => hb (List.mem_cons_of_mem c hm)) cols (cur ++ [c])]
    simp

theorem foldl_scanStep_quotes_parity (l : List Char) :
    ∀ s : List (List Char) × List Char × Bool,
      (List.foldl scanStep s l).2.2 = ((l.count '"' % 2 == 1).xor s.2.2) := by
  induction l with
  | nil => intro s; simp
  | cons c t ih =>
    intro s
    rw [List.foldl_cons, ih]
    by_cases hc : c = '"'
    · subst hc
      have hcount : (('"' : Char) :: t).count '"' = t.count '"' + 1 := by
        simp [List.count_cons]
      rw [hcount]
      have hstep : (scanStep s '"').2.2 = !s.2.2 := by simp [scanStep]
      rw [hstep]
      have hpar : ((t.count '"' + 1) % 2 == 1) = !(t.count '"' % 2 == 1) := by
        by_cases h2 : t.count '"' % 2 = 1
        · have h3 : (t.count '"' + 1) % 2 = 0 := by omega
          simp [h2, h3]
        · have h0 : t.count '"' % 2 = 0 := by omega
          have h3 : (t.count '"' + 1) % 2 = 1 := by omega
          simp [h0, h3]
      rw [hpar]
      cases (t.count '"' % 2 == 1) <;> cases s.2.2 <;> rfl
    · have hc' : (c == '"') = false := beq_eq_false_iff_ne.mpr hc
      have hcount : (c :: t).count '"' = t.count '"' := by
        simp [List.count_cons, hc']
      have hstep : (scanStep s c).2.2 = s.2.2 := by
        unfold scanStep
        rw [if_neg (by simp [hc'])]
        by_cases h2 : (c == ',' && !s.2.2) = true
        · rw [if_pos h2]
          have hs2 : s.2.2 = false := by
            have := (Bool.and_eq_true _ _).mp h2
            simpa using this.2
          simp [hs2]
        · rw [if_neg h2]
      rw [hcount, hstep]

theorem scanLine_inQuotes_false (a : List Char) (ha : a.count '"' % 2 = 0) :
    (scanLine a).2.2 = false := by
  unfold scanLine
  rw [foldl_scanStep_quotes_parity]
  have h1 : (a.count '"' % 2 == 1) = false := by simp [ha]
  simp [h1]

/-! Properties of the sort model. -/

theorem mem_jsSortInsert (le : Observation → Observation → Bool) (x z : Observation) :
    ∀ l : List Observation, (z ∈ jsSortInsert le x l ↔ z = x ∨ z ∈ l)
  | [] => by simp [jsSortInsert]
  | y :: ys => by
    by_cases h : le x y
    · simp [jsSortInsert, h]
    · simp only [jsSortInsert]
      rw [if_neg h]
      simp only [List.mem_cons, mem_jsSortInsert le x z ys]
      tauto

theorem mem_jsSort (le : Observation → Observation → Bool) (z : Observation) :
    ∀ l : List Observation, (z ∈ jsSort le l ↔ z ∈ l)
  | [] => Iff.rfl
  | x :: xs => by
    simp only [jsSort, mem_jsSortInsert, mem_jsSort le z xs, List.mem_cons]

theorem sortLE_true_iff (a b : Observation) (ha : validDate a) (hb : validDate b) :
    sortLE a b = true ↔ msOf a ≤ msOf b := by
  unfold validDate at ha hb
  obtain ⟨x, hx⟩ := Option.isSome_iff_exists.mp ha
  obtain ⟨y, hy⟩ := Option.isSome_iff_exists.mp hb
  unfold sortLE msOf
  rw [hx, hy]
  simp [sub_nonpos]

theorem pairwise_jsSortInsert (x : Observation) (hx : validDate x) :
    ∀ l : List Observation, (∀ y ∈ l, validDate y) →
      l.Pairwise (fun a b => msOf a ≤ msOf b) →
      (jsSortInsert sortLE x l).Pairwise (fun a b => msOf a ≤ msOf b)
  | [], _, _ => by simp [jsSortInsert]
  | y :: ys, hl, hp => by
    have hy : validDate y := hl y (List.mem_cons_self y ys)
    have hys : ∀ z ∈ ys, validDate z := fun z hz => hl z (List.mem_cons_of_mem y hz)
    rw [List.pairwise_cons] at hp
    obtain ⟨hyall, hpys⟩ := hp
    by_cases h : sortLE x y = true
    · have hxy : msOf x ≤ msOf y := (sortLE_true_iff x y hx hy).mp h
      simp only [jsSortInsert, h, if_true]
      rw [List.pairwise_cons]
      refine ⟨?_, List.Pairwise.cons hyall hpys⟩
      intro z hz
      rcases List.mem_cons.mp hz with rfl | hz'
      · exact hxy
      · exact le_trans hxy (hyall z hz')
    · have hyx : msOf y ≤ msOf x := by
        have hnot : ¬ msOf x ≤ msOf y := fun hle => h ((sortLE_true_iff x y hx hy).mpr hle)
        exact le_of_not_le hnot
      simp only [jsSortInsert]
      rw [if_neg h, List.pairwise_cons]
      refine ⟨?_, pairwise_jsSortInsert x hx ys hys hpys⟩
      intro z hz
      rcases (mem_jsSortInsert sortLE x z ys).mp hz with rfl | hz'
      · exact hyx
      · exact hyall z hz'

theorem pairwise_jsSort :
    ∀ l : List Observation, (∀ y ∈ l, validDate y) →
      (jsSort sortLE l).Pairwise (fun a b => msOf a ≤ msOf b)
  | [], _ => by simp [jsSort]
  | x :: xs, hl => by
    have hx : validDate x := hl x (List.mem_cons_self x xs)
    have hxs : ∀ z ∈ xs, validDate z := fun z hz => hl z (List.mem_cons_of_mem x hz)
    have hmem : ∀ z ∈ jsSort sortLE xs, validDate z :=
      fun z hz => hxs z ((mem_jsSort sortLE z xs).mp hz)
    exact pairwise_jsSortInsert x hx (jsSort sortLE xs) hmem (pairwise_jsSort xs hxs)

/-! Inversion lemmas for the parsers. -/

theorem parseEbirdDate_inv (s r : List Char) (h : parseEbirdDate s = some r) :
    ∃ d m y mm, splitCh ' ' (trim s) = [d, m, y] ∧ monthAbbrev m = some mm ∧
      r = y ++ '-' :: (mm ++ '-' :: padTwo d) := by
  unfold parseEbirdDate at h
  split at h
  next d m y heq =>
    split at h
    next mm hmm => exact ⟨d, m, y, mm, heq, hmm, (Option.some.inj h).symm⟩
    next => exact Option.noConfusion h
  next => exact Option.noConfusion h

theorem parseRow_inv (raw : List Char) (o : Observation) (h : parseRow raw = some o) :
    parseEbirdDate ((tokenizeLine (trim raw)).getD 8 []) = some o.date := by
  unfold parseRow at h
  split at h
  · exact Option.noConfusion h
  · split at h
    · split at h
      next d hd =>
        obtain rfl := Option.some.inj h
        exact hd
      next => exact Option.noConfusion h
    · exact Option.noConfusion h

/-! Line-ending lemmas. -/

theorem splitCh_joinWith_lf :
    ∀ ls : List (List Char), (∀ l ∈ ls, '\n' ∉ l) →
      ls ≠ [] → splitCh '\n' (joinWith ['\n'] ls) = ls
  | [], _, hne => absurd rfl hne
  | [l], h, _ => by
    simp only [joinWith]
    exact splitCh_no_sep _ _ (h l (List.mem_cons_self _ _))
  | l :: l' :: ls, h, _ => by
    have hj : joinWith ['\n'] (l :: l' :: ls) = l ++ '\n' :: joinWith ['\n'] (l' :: ls) := by
      simp [joinWith]
    rw [hj, splitCh_append_sep, splitCh_no_sep _ _ (h l (List.mem_cons_self _ _)),
      splitCh_joinWith_lf (l' :: ls) (fun x hx => h x (List.mem_cons_of_mem _ hx)) (by simp)]
    rfl

theorem splitCh_joinWith_crlf :
    ∀ ls : List (List Char), (∀ l ∈ ls, '\n' ∉ l) →
      ls ≠ [] → splitCh '\n' (joinWith ['\r', '\n'] ls) = addCR ls
  | [], _, hne => absurd rfl hne
  | [l], h, _ => by
    simp only [joinWith, addCR]
    exact splitCh_no_sep _ _ (h l (List.mem_cons_self _ _))
  | l :: l' :: ls, h, _ => by
    have hj : joinWith ['\r', '\n'] (l :: l' :: ls) =
        (l ++ ['\r']) ++ '\n' :: joinWith ['\r', '\n'] (l' :: ls) := by
      simp [joinWith]
    have hnl : '\n' ∉ l ++ ['\r'] := by
      intro hmem
      rcases List.mem_append.mp hmem with hm | hm
      · exact h l (List.mem_cons_self _ _) hm
      · rw [List.mem_singleton] at hm
        exact absurd hm (by decide)
    rw [hj, splitCh_append_sep, splitCh_no_sep _ _ hnl,
      splitCh_joinWith_crlf (l' :: ls) (fun x hx => h x (List.mem_cons_of_mem _ hx)) (by simp)]
    rfl

theorem parseRow_append_cr (l : List Char) : parseRow (l ++ ['\r']) = parseRow l := by
  have ht : trim (l ++ ['\r']) = trim l := trim_append_ws '\r' (by decide) l
  unfold parseRow
  rw [ht]

theorem filterMap_parseRow_addCR :
    ∀ ls : List (List Char), (addCR ls).filterMap parseRow = ls.filterMap parseRow
  | [] => rfl
  | [l] => rfl
  | l :: l' :: ls => by
    show ((l ++ ['\r']) :: addCR (l' :: ls)).filterMap parseRow = _
    rw [List.filterMap_cons, List.filterMap_cons, parseRow_append_cr,
      filterMap_parseRow_addCR (l' :: ls)]

/-! The claims. -/

/-- Claim C1: for every raw row that tokenizes into at least 9 fields and whose
field at index 8 normalizes to a date, `parseRow` returns an Observation whose
five fields are exactly: common = field 3, sciName = field 4, location = field 6
with every double-quote character removed, region = field 7, and date = the
normalized form of field 8, with every field trimmed of leading and trailing
whitespace. -/
theorem C1_parseRow_extraction (raw d : List Char)
    (h9 : 9 ≤ (tokenizeLine (trim raw)).length)
    (hd : parseEbirdDate ((tokenizeLine (trim raw)).getD 8 []) = some d) :
    parseRow raw = some
      { date := d,
        sciName := (tokenizeLine (trim raw)).getD 4 [],
        common := (tokenizeLine (trim raw)).getD 3 [],
        location := removeQuotes ((tokenizeLine (trim raw)).getD 6 []),
        region := (tokenizeLine (trim raw)).getD 7 [] }
    ∧ ∀ i, trim ((tokenizeLine (trim raw)).getD i []) = (tokenizeLine (trim raw)).getD i [] := by
  constructor
  · have hne : ¬ trim raw = [] := by
      intro h0
      rw [h0] at h9
      simp [tokenizeLine, scanLine] at h9
    unfold parseRow
    rw [if_neg hne, if_pos h9, hd]
  · intro i
    exact tokenizeLine_getD_trimmed (trim raw) i

/-- Witness for C1: a concrete quoted row from the spec's own example. -/
theorem C1_witness :
    9 ≤ (tokenizeLine (trim ("1,2,3,\"Robin\",4,5,\"Forest, Lake\",US-NY,\"01 Jan 2024\"".toList))).length
    ∧ parseRow ("1,2,3,\"Robin\",4,5,\"Forest, Lake\",US-NY,\"01 Jan 2024\"".toList) = some
      { date := ("2024-01-01".toList),
        sciName := ("4".toList),
        common := ("Robin".toList),
        location := ("Forest, Lake".toList),
        region := ("US-NY".toList) } :=
  ⟨by decide,
    ((C1_parseRow_extraction ("1,2,3,\"Robin\",4,5,\"Forest, Lake\",US-NY,\"01 Jan 2024\"".toList)
      ("2024-01-01".toList) (by decide) (by decide)).1)⟩

/-- Claim C2 held against the code fails twice.  First, the code splits the
trimmed input on single space characters, not on general whitespace runs: the
input `"14  Dec 2025"` (two spaces) consists of exactly three
whitespace-separated tokens whose second token is `Dec`, yet `parseEbirdDate`
returns `none` because the single-space split yields four parts.  Second, an
unrecognized abbreviation does not always yield absent: the unguarded
`months[parts[1]]` read reaches `Object.prototype`, so the month token
`toString` — not one of the twelve abbreviations — yields a truthy inherited
method and `parseEbirdDate` returns a non-null garbage date. -/
theorem C2_counterexample :
    wsTokens ("14  Dec 2025".toList) = [("14".toList), ("Dec".toList), ("2025".toList)]
    ∧ (wsTokens ("14  Dec 2025".toList)).length = 3
    ∧ monthAbbrev ("Dec".toList) = some ("12".toList)
    ∧ parseEbirdDate ("14  Dec 2025".toList) = none
    ∧ monthTable.lookup ("toString".toList) = none
    ∧ parseEbirdDate ("01 toString 2020".toList)
        = some ("2020-function toString() \x7b [native code] \x7d-01".toList) := by
  refine ⟨by decide, by decide, by decide, by decide, by decide, by decide⟩

/-- Claim C2 as amended: with tokens read as the parts of the trimmed input
split on single space characters (the code's split), and the month lookup
read as JavaScript property access (the twelve own table entries shadowing
the members inherited from `Object.prototype`): exactly three parts whose
second is an own table entry yield `year-month-zeroPaddedDay`; three parts
whose second is no table entry but an inherited `Object.prototype` member
yield the non-null string `year-<stringified member>-zeroPaddedDay`; three
parts whose second is neither yield `none`; and a part count other than three
yields `none`. -/
theorem C2_parseEbirdDate_spec (s : List Char) :
    (∀ d m y mm, splitCh ' ' (trim s) = [d, m, y] → monthTable.lookup m = some mm →
        parseEbirdDate s = some (y ++ '-' :: (mm ++ '-' :: padTwo d)))
    ∧ (∀ d m y g, splitCh ' ' (trim s) = [d, m, y] → monthTable.lookup m = none →
        objectProtoMembers.lookup m = some g →
        parseEbirdDate s = some (y ++ '-' :: (g ++ '-' :: padTwo d)))
    ∧ (∀ d m y, splitCh ' ' (trim s) = [d, m, y] → monthTable.lookup m = none →
        objectProtoMembers.lookup m = none → parseEbirdDate s = none)
    ∧ ((splitCh ' ' (trim s)).length ≠ 3 → parseEbirdDate s = none) := by
  refine ⟨?_, ?_, ?_, ?_⟩
  · intro d m y mm hsp hm
    simp only [parseEbirdDate, hsp, monthAbbrev, hm]
  · intro d m y g hsp hm hg
    simp only [parseEbirdDate, hsp, monthAbbrev, hm, hg]
  · intro d m y hsp hm hg
    simp only [parseEbirdDate, hsp, monthAbbrev, hm, hg]
  · intro hlen
    unfold parseEbirdDate
    cases hsp : splitCh ' ' (trim s) with
    | nil => rfl
    | cons d r1 =>
      cases r1 with
      | nil => rfl
      | cons m r2 =>
        cases r2 with
        | nil => rfl
        | cons y r3 =>
          cases r3 with
          | nil => exact absurd (by rw [hsp]; rfl) hlen
          | cons w r4 => rfl

/-- Witness for C2 (amended): the spec's own example date, an inherited
`Object.prototype` key producing a garbage date, an unknown month, and a
two-token input. -/
theorem C2_witness :
    parseEbirdDate ("14 Dec 2025".toList) = some ("2025-12-14".toList)
    ∧ parseEbirdDate ("01 toString 2020".toList)
        = some ("2020-function toString() \x7b [native code] \x7d-01".toList)
    ∧ parseEbirdDate ("05 Xyz 2020".toList) = none
    ∧ parseEbirdDate ("14 Dec".toList) = none :=
  ⟨(C2_parseEbirdDate_spec ("14 Dec 2025".toList)).1 ("14".toList) ("Dec".toList)
      ("2025".toList) ("12".toList) (by decide) (by decide),
    (C2_parseEbirdDate_spec ("01 toString 2020".toList)).2.1 ("01".toList)
      ("toString".toList) ("2020".toList)
      ("function toString() \x7b [native code] \x7d".toList) (by decide) (by decide) (by decide),
    (C2_parseEbirdDate_spec ("05 Xyz 2020".toList)).2.2.1 ("05".toList) ("Xyz".toList)
      ("2020".toList) (by decide) (by decide) (by decide),
    (C2_parseEbirdDate_spec ("14 Dec".toList)).2.2.2 (by decide)⟩

/-- Claim C6: every raw row that tokenizes into fewer than 9 fields is
rejected by the per-row branch: `parseRow` returns `none`. -/
theorem C6_short_row_dropped (raw : List Char)
    (h : (tokenizeLine (trim raw)).length < 9) : parseRow raw = none := by
  unfold parseRow
  by_cases h0 : trim raw = []
  · rw [if_pos h0]
  · rw [if_neg h0, if_neg (by omega : ¬ 9 ≤ (tokenizeLine (trim raw)).length)]

/-- Witness for C6: a two-field row is dropped. -/
theorem C6_witness :
    (tokenizeLine (trim ("a,b".toList))).length < 9 ∧ parseRow ("a,b".toList) = none :=
  ⟨by decide, C6_short_row_dropped ("a,b".toList) (by decide)⟩

/-- Claim C3 held against the code fails in its "valid 10-character ISO date"
part: `parseEbirdDate` passes the year token through unvalidated, so the row
with date text `10 May 25` yields the 8-character date `25-05-10` in the
output; and a month token naming an inherited `Object.prototype` member
yields an output record whose date embeds a stringified built-in function
instead of a month code. -/
theorem C3_counterexample :
    parseCSV ("h\nA,B,C,Common,Sci,F,Loc,Reg,10 May 25".toList) =
      [{ date := ("25-05-10".toList), sciName := ("Sci".toList),
         common := ("Common".toList), location := ("Loc".toList),
         region := ("Reg".toList) }]
    ∧ ("25-05-10".toList).length ≠ 10
    ∧ parseCSV ("h\nA,B,C,Com,Sci,F,Loc,Reg,01 toString 2020".toList) =
      [{ date := ("2020-function toString() \x7b [native code] \x7d-01".toList),
         sciName := ("Sci".toList), common := ("Com".toList),
         location := ("Loc".toList), region := ("Reg".toList) }] := by
  refine ⟨by decide, by decide, by decide⟩

/-- Claim C3 as amended: every Observation in the output of `parseCSV` has a
date that is the successful normalization of some source text — the year
token unchanged, a hyphen, the stringification of the value the month lookup
found (a two-digit code for the twelve own table entries; for a month token
naming an inherited `Object.prototype` member, that built-in's rendered
text), a hyphen, and the zero-padded day token — and a record whose source
date text does not normalize is never constructed.  (The date need be
neither 10 characters — the year token's length is whatever the source row
carried — nor numeric in its month part.) -/
theorem C3_date_from_normalizer (text : List Char) (o : Observation)
    (ho : o ∈ parseCSV text) :
    ∃ s, parseEbirdDate s = some o.date ∧
      ∃ d m y mm, splitCh ' ' (trim s) = [d, m, y] ∧ monthAbbrev m = some mm ∧
        o.date = y ++ '-' :: (mm ++ '-' :: padTwo d) := by
  have ho' : o ∈ rowObservations text := (mem_jsSort sortLE o (rowObservations text)).mp ho
  obtain ⟨line, _, hline⟩ := List.mem_filterMap.mp ho'
  have hd := parseRow_inv line o hline
  exact ⟨_, hd, parseEbirdDate_inv _ _ hd⟩

/-- Witness for C3 (amended): the single observation of a concrete input. -/
theorem C3_witness :
    ({ date := ("2024-01-01".toList), sciName := ("Sci".toList),
       common := ("Com".toList), location := ("Loc".toList),
       region := ("Reg".toList) } : Observation) ∈
        parseCSV ("h\nA,B,C,Com,Sci,F,Loc,Reg,01 Jan 2024".toList)
    ∧ ∃ s, parseEbirdDate s = some (("2024-01-01".toList))
        ∧ ∃ d m y mm, splitCh ' ' (trim s) = [d, m, y] ∧ monthAbbrev m = some mm ∧
            ("2024-01-01".toList) = y ++ '-' :: (mm ++ '-' :: padTwo d) :=
  ⟨by decide,
    C3_date_from_normalizer ("h\nA,B,C,Com,Sci,F,Loc,Reg,01 Jan 2024".toList)
      { date := ("2024-01-01".toList), sciName := ("Sci".toList),
        common := ("Com".toList), location := ("Loc".toList),
        region := ("Reg".toList) } (by decide)⟩

/-- Claim C4 held against the code fails for inputs whose parsed dates are not
`Date`-parseable: a year token such as `zzzz` gives a `NaN` comparator value,
coerced to 0 by the sort, so the record stays ahead of a chronologically and
lexically smaller one. -/
theorem C4_counterexample :
    (parseCSV ("h\nA,B,C,Com,Sci,F,Loc,Reg,10 May zzzz\nA,B,C,Com2,Sci2,F,Loc2,Reg2,10 May 2020".toList)).map
        (fun o => o.date) = [("zzzz-05-10".toList), ("2020-05-10".toList)]
    ∧ ¬ (parseCSV ("h\nA,B,C,Com,Sci,F,Loc,Reg,10 May zzzz\nA,B,C,Com2,Sci2,F,Loc2,Reg2,10 May 2020".toList)).Pairwise
        (fun a b => lexLeB a.date b.date = true) := by
  refine ⟨by decide, by decide⟩

/-- Claim C4 as amended: whenever every observation in the output of
`parseCSV` carries a `Date`-parseable date (four-digit year, calendar-valid
month and day), the output is sorted ascending by date under chronological
(equivalently, for such dates, lexical) comparison. -/
theorem C4_sorted_of_valid (text : List Char)
    (h : ∀ o ∈ parseCSV text, validDate o) :
    (parseCSV text).Pairwise (fun a b => msOf a ≤ msOf b) := by
  unfold parseCSV at h ⊢
  exact pairwise_jsSort (rowObservations text)
    (fun y hy => h y ((mem_jsSort sortLE y (rowObservations text)).mpr hy))

/-- Witness for C4 (amended): the spec's ordering scenario — rows normalizing
to 2023-05-10 then 2021-11-02 in input order come out sorted (2021 first). -/
theorem C4_witness :
    (∀ o ∈ parseCSV ("header\nA,B,C,Rob,Sci,F,Loc,Reg,10 May 2023\nA,B,C,Jay,Sci2,F,Loc2,Reg2,2 Nov 2021".toList), validDate o)
    ∧ (parseCSV ("header\nA,B,C,Rob,Sci,F,Loc,Reg,10 May 2023\nA,B,C,Jay,Sci2,F,Loc2,Reg2,2 Nov 2021".toList)).Pairwise
        (fun a b => msOf a ≤ msOf b)
    ∧ (parseCSV ("header\nA,B,C,Rob,Sci,F,Loc,Reg,10 May 2023\nA,B,C,Jay,Sci2,F,Loc2,Reg2,2 Nov 2021".toList)).map
        (fun o => o.date) = [("2021-11-02".toList), ("2023-05-10".toList)] :=
  ⟨by decide,
    C4_sorted_of_valid
      ("header\nA,B,C,Rob,Sci,F,Loc,Reg,10 May 2023\nA,B,C,Jay,Sci2,F,Loc2,Reg2,2 Nov 2021".toList)
      (by decide),
    by decide⟩

/-- Claim C5: for every input string the pipeline terminates with a valid
envelope holding a possibly empty observations sequence (the envelope's
fields are always populated as built), and a malformed row — one the per-row
branch rejects — is dropped silently: removing it from anywhere after the
header leaves the observations of the run unchanged, so it does not abort
processing of the remaining rows. -/
theorem C5_total_and_drops_silently (ts1 ts2 : Int) (text pre bad post : List Char)
    (hbad : parseRow bad = none) (hnl : '\n' ∉ bad) :
    (∃ obs, run ts1 ts2 text =
      { profile := { lastSync := ts1 }, observations := obs, exportedAt := ts2 })
    ∧ (run ts1 ts2 (pre ++ '\n' :: (bad ++ '\n' :: post))).observations
        = (run ts1 ts2 (pre ++ '\n' :: post)).observations := by
  constructor
  · exact ⟨parseCSV text, rfl⟩
  · show parseCSV _ = parseCSV _
    unfold parseCSV rowObservations
    rw [splitCh_append_sep, splitCh_append_sep, splitCh_append_sep,
      splitCh_no_sep '\n' bad hnl]
    obtain ⟨p0, prest, hp⟩ : ∃ p0 prest, splitCh '\n' pre = p0 :: prest := by
      cases hsp : splitCh '\n' pre with
      | nil => exact absurd hsp (splitCh_ne_nil _ _)
      | cons p0 prest => exact ⟨p0, prest, rfl⟩
    rw [hp]
    simp [List.filterMap_append, List.filterMap_cons, hbad]

/-- Witness for C5: a concrete malformed (two-field) row between a header and
a valid row. -/
theorem C5_witness :
    parseRow ("x,y".toList) = none
    ∧ (∃ obs, run 0 0 ("anything".toList) =
        { profile := { lastSync := 0 }, observations := obs, exportedAt := 0 })
    ∧ (run 0 0 ("header".toList ++ '\n' :: (("x,y".toList) ++ '\n' :: ("A,B,C,Com,Sci,F,Loc,Reg,01 Jan 2024".toList)))).observations
        = (run 0 0 ("header".toList ++ '\n' :: ("A,B,C,Com,Sci,F,Loc,Reg,01 Jan 2024".toList))).observations :=
  ⟨by decide,
    (C5_total_and_drops_silently 0 0 ("anything".toList) ("header".toList) ("x,y".toList)
      ("A,B,C,Com,Sci,F,Loc,Reg,01 Jan 2024".toList) (by decide) (by decide)).1,
    (C5_total_and_drops_silently 0 0 ("anything".toList) ("header".toList) ("x,y".toList)
      ("A,B,C,Com,Sci,F,Loc,Reg,01 Jan 2024".toList) (by decide) (by decide)).2⟩

/-- Claim C7: the observations of two runs on the same raw text are identical
whatever the two runs' timestamp captures were — the pipeline is
deterministic in the text, excluding the timestamp fields. -/
theorem C7_deterministic (ts1 ts2 ts1' ts2' : Int) (text : List Char) :
    (run ts1 ts2 text).observations = (run ts1' ts2' text).observations := rfl

/-- Claim C8: the first row never contributes an Observation regardless of
its content — replacing the header by any other single row leaves the output
unchanged — and an input of exactly one header row and no data rows yields
the empty observations sequence. -/
theorem C8_header_skipped (h h' rest g : List Char)
    (hh : '\n' ∉ h) (hh' : '\n' ∉ h') (hg : '\n' ∉ g) :
    parseCSV (h ++ '\n' :: rest) = parseCSV (h' ++ '\n' :: rest)
    ∧ parseCSV g = [] := by
  constructor
  · unfold parseCSV rowObservations
    rw [splitCh_append_sep, splitCh_append_sep, splitCh_no_sep _ _ hh,
      splitCh_no_sep _ _ hh']
    simp
  · unfold parseCSV rowObservations
    rw [splitCh_no_sep _ _ hg]
    rfl

/-- Witness for C8: a valid-looking data row used as the header is still
skipped, and a header-only input yields the empty sequence. -/
theorem C8_witness :
    parseCSV (("header".toList) ++ '\n' :: ("A,B,C,Com,Sci,F,Loc,Reg,01 Jan 2024".toList))
      = parseCSV (("A,B,C,Com,Sci,F,Loc,Reg,02 Feb 2024".toList) ++ '\n' :: ("A,B,C,Com,Sci,F,Loc,Reg,01 Jan 2024".toList))
    ∧ parseCSV ("header".toList) = [] :=
  ⟨(C8_header_skipped ("header".toList) ("A,B,C,Com,Sci,F,Loc,Reg,02 Feb 2024".toList)
      ("A,B,C,Com,Sci,F,Loc,Reg,01 Jan 2024".toList) ("header".toList)
      (by decide) (by decide) (by decide)).1,
    (C8_header_skipped ("header".toList) ("header".toList) [] ("header".toList)
      (by decide) (by decide) (by decide)).2⟩

/-- Claim C9: in a row with an odd number of double-quote characters (written
`a ++ '"' :: b` with an even count in `a` and none in `b`), every comma after
that final quote is literal: the tokenizer emits the columns it had already
closed inside `a` and folds the whole remainder `b` into the last field (the
quote itself removed), producing exactly as many fields as for `a` alone. -/
theorem C9_unterminated_quote (a b : List Char)
    (ha : a.count '"' % 2 = 0) (hb : '"' ∉ b) :
    tokenizeLine (a ++ '"' :: b) = (scanLine a).1 ++ [trim ((scanLine a).2.1 ++ b)]
    ∧ (tokenizeLine (a ++ '"' :: b)).length = (tokenizeLine a).length := by
  have hq : (scanLine a).2.2 = false := scanLine_inQuotes_false a ha
  have hscan : scanLine (a ++ '"' :: b) = ((scanLine a).1, (scanLine a).2.1 ++ b, true) := by
    unfold scanLine
    rw [List.foldl_append, List.foldl_cons]
    have hstep : scanStep (List.foldl scanStep ([], [], false) a) '"'
        = ((scanLine a).1, (scanLine a).2.1, true) := by
      show scanStep (scanLine a) '"' = _
      have : scanStep (scanLine a) '"'
          = ((scanLine a).1, (scanLine a).2.1, !(scanLine a).2.2) := by
        simp [scanStep]
      rw [this, hq]
      rfl
    rw [hstep]
    exact foldl_scanStep_inQuotes b hb _ _
  constructor
  · unfold tokenizeLine
    rw [hscan]
  · unfold tokenizeLine
    rw [hscan]
    simp

/-- Witness for C9: the row `x,y"p,q r` — zero quotes before the lone quote,
none after — tokenizes to the two fields `x` and `yp,q r`. -/
theorem C9_witness :
    ((("x,y".toList)).count '"' % 2 = 0)
    ∧ ('"' ∉ ("p,q r".toList))
    ∧ tokenizeLine (("x,y".toList) ++ '"' :: ("p,q r".toList))
        = (scanLine ("x,y".toList)).1 ++ [trim ((scanLine ("x,y".toList)).2.1 ++ ("p,q r".toList))]
    ∧ (tokenizeLine (("x,y".toList) ++ '"' :: ("p,q r".toList))).length
        = (tokenizeLine ("x,y".toList)).length :=
  ⟨by decide, by decide,
    (C9_unterminated_quote ("x,y".toList) ("p,q r".toList) (by decide) (by decide)).1,
    (C9_unterminated_quote ("x,y".toList) ("p,q r".toList) (by decide) (by decide)).2⟩

/-- Claim C10: joining the same lines with CRLF instead of LF yields the same
observations: rows are split on the newline character only, and the trailing
carriage return each non-final row then carries is removed by the per-row
trim before tokenizing. -/
theorem C10_crlf_equals_lf (ls : List (List Char)) (hne : ls ≠ [])
    (h : ∀ l ∈ ls, '\n' ∉ l) :
    parseCSV (joinWith ['\r', '\n'] ls) = parseCSV (joinWith ['\n'] ls) := by
  unfold parseCSV rowObservations
  rw [splitCh_joinWith_crlf ls h hne, splitCh_joinWith_lf ls h hne]
  cases ls with
  | nil => rfl
  | cons l0 rest =>
    cases rest with
    | nil => rfl
    | cons l1 rest' =>
      show jsSort sortLE ((addCR (l1 :: rest')).filterMap parseRow) = _
      rw [filterMap_parseRow_addCR (l1 :: rest')]
      rfl

/-- Witness for C10: a header plus one data row under both line endings. -/
theorem C10_witness :
    (["header".toList, "A,B,C,Com,Sci,F,Loc,Reg,01 Jan 2024".toList] ≠ ([] : List (List Char)))
    ∧ parseCSV (joinWith ['\r', '\n'] ["header".toList, "A,B,C,Com,Sci,F,Loc,Reg,01 Jan 2024".toList])
        = parseCSV (joinWith ['\n'] ["header".toList, "A,B,C,Com,Sci,F,Loc,Reg,01 Jan 2024".toList]) :=
  ⟨by decide,
    C10_crlf_equals_lf ["header".toList, "A,B,C,Com,Sci,F,Loc,Reg,01 Jan 2024".toList]
      (by decide) (by decide)⟩

end FetchEbird
